import Mathlib

/-!
Shallow embedding of quacktokenscope's multi-tokenizer analysis engine.

The embedding covers, faithfully to the Python source:
* `utils/tokenizers/base.py` — the `MockTokenizer` (character tokenizer) and the
  initialization-flag discipline of the adapter lifecycle;
* `utils/tokenizers/tiktoken_tokenizer.py` — the guarded `tokenize`/`decode`/
  `get_vocab_size` methods, parameterized over the external `tiktoken` encoding;
* `utils/frequency.py` — `analyze_token_frequency` and `classify_token_rarity`;
* `utils/reverse_mapping.py` — `calculate_similarity` (the fallback branch that is
  active when the Levenshtein library is unavailable) and `evaluate_reconstruction`;
* `plugins/token_scope.py` — `TokenScopePlugin._analyze_file`, the aggregator.

Conventions: Python strings are Lean `String`s (per-character views use `String.data`);
Python floats arising from true division are modelled as rationals `ℚ`; Python dicts
are insertion-ordered association lists; methods that can raise return `Except String`.
-/

/-- Python dict assignment `d[k] = v`: if the key is present its value is replaced in
place (insertion position kept), otherwise the pair is appended at the end. -/
def dictSet {α : Type} (d : List (String × α)) (k : String) (v : α) : List (String × α) :=
  if d.any (fun p => p.1 == k) then
    d.map (fun p => if p.1 == k then (k, v) else p)
  else d ++ [(k, v)]

/-- In-place update of the element at index `i` of a list, as in the Python statement
`xs[i] = f(xs[i])`; out-of-range indices leave the list unchanged. -/
def modifyAt {α : Type} (f : α → α) : List α → Nat → List α
  | [], _ => []
  | x :: xs, 0 => f x :: xs
  | _x :: xs, n + 1 => _x :: modifyAt f xs n

/-- The keys of a Python `collections.Counter` built from the list `l`, in insertion
order, which for a counter is the order of first occurrence in `l`. -/
def counterKeys {α : Type} [DecidableEq α] (l : List α) : List α :=
  l.foldl (fun acc s => if s ∈ acc then acc else acc ++ [s]) []

/-- The items view of a Python `collections.Counter` built from `l`: each distinct
element (in first-occurrence order) paired with its multiplicity. -/
def counterItems {α : Type} [DecidableEq α] (l : List α) : List (α × Nat) :=
  (counterKeys l).map (fun k => (k, l.count k))

/-- Left-to-right maximum selection that replaces the current best only on a strictly
greater key, so among equal keys the earliest element wins.  This is the behaviour of
Python's builtin `max` with a key function over the sequence `x :: xs`, and also of
`Counter.most_common(1)[0]` over the counter's keys (the documented `most_common`
order is descending count with ties in first-encounter order). -/
def firstMaxBy {α β : Type} [LinearOrder β] (key : α → β) (x : α) (xs : List α) : α :=
  xs.foldl (fun best y => if key y > key best then y else best) x

/-- Left-to-right minimum selection that replaces the current best on a less-or-equal
key, so among equal keys the latest element wins.  This is the behaviour of
`Counter.most_common()[-1]` over the counter's keys: the last entry of a stable
descending-by-count sort is the last-encountered key of minimal count. -/
def lastMinBy {α β : Type} [LinearOrder β] (key : α → β) (x : α) (xs : List α) : α :=
  xs.foldl (fun best y => if key y ≤ key best then y else best) x

/-- Model of `str_counter.most_common(1)[0]` in `analyze_token_frequency` (frequency.py 59):
the first-encountered token string of maximal count.  The source only evaluates this
on a nonempty tokenization; the `[]` branch mirrors the sentinel it uses instead. -/
def mostCommonTok (l : List String) : String × Nat :=
  match counterKeys l with
  | [] => ("", 0)
  | k :: ks =>
    let t := firstMaxBy (fun s => l.count s) k ks
    (t, l.count t)

/-- Model of `str_counter.most_common()[-1]` in `analyze_token_frequency` (frequency.py 61):
the last-encountered token string of minimal count. -/
def rarestTok (l : List String) : String × Nat :=
  match counterKeys l with
  | [] => ("", 0)
  | k :: ks =>
    let t := lastMinBy (fun s => l.count s) k ks
    (t, l.count t)

/-- Model of a tokenizer adapter as seen by the aggregator: the three methods the
analysis calls, each allowed to raise (`Except.error`), plus the adapter's `name`
class attribute. -/
structure Adapter where
  name : String
  tokenize : String → Except String (List Nat × List String)
  decode : List Nat → Except String String
  getVocabSize : Except String Nat

/-- Schema `TokenFrequency` (schemas/token_analysis.py): per-adapter frequency maps,
with `id_frequencies` keyed by the decimal string of the token id as in
`frequency.py` line 45. -/
structure TokenFrequency where
  tokenizer : String
  file : String
  frequencies : List (String × Nat)
  id_frequencies : List (String × Nat)

/-- Schema `TokenizerStats` (schemas/token_analysis.py). -/
structure TokenizerStats where
  name : String
  total_tokens : Nat
  unique_tokens : Nat
  vocab_size : Nat
  avg_token_length : ℚ
  reconstruction_score : ℚ
  reconstruction_status : String

/-- Schema `TokenRow` (schemas/token_analysis.py): one aligned position in the token
comparison table; `tokenizer_data` maps an adapter name to its `(id, str)` entry. -/
structure TokenRow where
  token_index : Nat
  tokenizer_data : List (String × Nat × String)

/-- Schema `TokenAnalysis` (schemas/token_analysis.py). -/
structure TokenAnalysis where
  filename : String
  tokenizers_used : List String
  stats : List (String × TokenizerStats)
  token_table : List TokenRow
  best_match : String

/-- Schema `TokenSummary` (schemas/token_analysis.py). -/
structure TokenSummary where
  filename : String
  tokenizers_used : List String
  total_tokens : List (String × Nat)
  best_match : String
  most_common_token : List (String × String × Nat)
  rarest_token : List (String × String × Nat)

/-- Model of `MockTokenizer.tokenize` (base.py 137-151): `tokens = list(text)` and
`token_ids = [ord(c) % 1000 for c in tokens]`.  It performs no initialization
check. -/
def MockTokenizer.tokenize (text : List Char) : List Nat × List String :=
  (text.map (fun c => c.toNat % 1000), text.map (fun c => String.mk [c]))

/-- Model of `MockTokenizer.decode` (base.py 153-165): `"".join(chr(tid % 128) for tid in
token_ids)`, viewed as the resulting character list. -/
def MockTokenizer.decode (token_ids : List Nat) : List Char :=
  token_ids.map (fun tid => Char.ofNat (tid % 128))

/-- A call to `MockTokenizer.tokenize` on an adapter instance whose `_initialized`
flag is `_initialized`: the method body (base.py 137-151) never consults the flag, so
the call returns normally regardless. -/
def MockTokenizer.tokenizeCall (_initialized : Bool) (text : List Char) :
    Except String (List Nat × List String) :=
  Except.ok (MockTokenizer.tokenize text)

/-- The mock round trip `MockTokenizer.decode(tokenize(text)[0])`. -/
def mockRoundTrip (text : List Char) : List Char :=
  MockTokenizer.decode (MockTokenizer.tokenize text).1

/-- The part of the external `tiktoken` encoding object that the adapter uses:
`encode`, single-id decode (used per token for the string column), full decode, and
the mergeable-ranks size. -/
structure Encoding where
  encode : String → List Nat
  decodeOne : Nat → String
  decodeAll : List Nat → String
  ranksSize : Nat

/-- Model of `TiktokenTokenizer.tokenize` (tiktoken_tokenizer.py 61-80): raises
`RuntimeError("Tokenizer not initialized")` unless `_initialized`; otherwise encodes
and decodes each id individually for the string column. -/
def TiktokenTokenizer.tokenizeCall (enc : Encoding) (initialized : Bool) (text : String) :
    Except String (List Nat × List String) :=
  if initialized = false then Except.error "Tokenizer not initialized"
  else
    let token_ids := enc.encode text
    Except.ok (token_ids, token_ids.map enc.decodeOne)

/-- Model of `TiktokenTokenizer.decode` (tiktoken_tokenizer.py 82-95). -/
def TiktokenTokenizer.decodeCall (enc : Encoding) (initialized : Bool) (token_ids : List Nat) :
    Except String String :=
  if initialized = false then Except.error "Tokenizer not initialized"
  else Except.ok (enc.decodeAll token_ids)

/-- Model of `TiktokenTokenizer.get_vocab_size` (tiktoken_tokenizer.py 97-109). -/
def TiktokenTokenizer.getVocabSizeCall (enc : Encoding) (initialized : Bool) :
    Except String Nat :=
  if initialized = false then Except.error "Tokenizer not initialized"
  else Except.ok enc.ranksSize

/-- Model of `classify_token_rarity` (frequency.py 90-111): percentage frequency, then
`Legendary` below 0.1, `Rare` below 1.0, else `Common`. -/
def classify_token_rarity (_token : String) (count : Nat) (total_tokens : Nat) : String :=
  let frequency : ℚ := if total_tokens > 0 then ((count : ℚ) / (total_tokens : ℚ)) * 100 else 0
  if frequency < 1/10 then "🟣 Legendary"
  else if frequency < 1 then "🔴 Rare"
  else "🟢 Common"

/-- Model of `calculate_similarity` (reverse_mapping.py 29-55) in the fallback branch taken when
the Levenshtein library is unavailable (`USE_LEVENSHTEIN = False`): empty original is
perfectly similar to empty reconstruction and completely dissimilar to anything else;
otherwise the number of positionally matching characters over the larger length. -/
def calculate_similarity (original reconstructed : List Char) : ℚ :=
  if original = [] then (if reconstructed = [] then 1 else 0)
  else
    let max_len := max original.length reconstructed.length
    if max_len = 0 then 1
    else (((original.zip reconstructed).countP (fun p => p.1 == p.2) : Nat) : ℚ) / (max_len : ℚ)

/-- The status mapping of `evaluate_reconstruction` (reverse_mapping.py 85-91):
`Flawless` on exact similarity 1.0, else `Imperfect` from 0.9 up, else `Botched`. -/
def reconstructionStatus (similarity : ℚ) : String :=
  if similarity = 1 then "Flawless"
  else if similarity ≥ 9/10 then "Imperfect"
  else "Botched"

/-- Model of `evaluate_reconstruction` (reverse_mapping.py 58-93): tokenize, decode, score. -/
def evaluate_reconstruction (tokenizer : Adapter) (text : String) :
    Except String (String × ℚ × String) := do
  let (token_ids, _) ← tokenizer.tokenize text
  let reconstructed ← tokenizer.decode token_ids
  let similarity := calculate_similarity text.data reconstructed.data
  pure (reconstructed, similarity, reconstructionStatus similarity)

/-- Model of `analyze_token_frequency` (frequency.py 18-66): build both counters, then the
most common (first of `most_common()`) and rarest (last of `most_common()`) token
strings, with the `("", 0)` sentinel when the counter is empty. -/
def analyze_token_frequency (tokenizer : Adapter) (text : String) (filename : String) :
    Except String (TokenFrequency × (String × Nat) × (String × Nat)) := do
  let (token_ids, token_strs) ← tokenizer.tokenize text
  let id_frequencies := (counterItems token_ids).map (fun p => (toString p.1, p.2))
  let str_frequencies := counterItems token_strs
  let frequency : TokenFrequency :=
    ⟨tokenizer.name, filename, str_frequencies, id_frequencies⟩
  let most_common := if str_frequencies = [] then ("", 0) else mostCommonTok token_strs
  let rarest := if str_frequencies = [] then ("", 0) else rarestTok token_strs
  pure (frequency, most_common, rarest)

/-- The default `TokenRow` used when reading past the end of the token table. -/
def defaultRow : TokenRow := ⟨0, []⟩

/-- Whether a row already has an entry for the adapter named `n`. -/
def rowHasKey (r : TokenRow) (n : String) : Bool :=
  r.tokenizer_data.any (fun p => p.1 == n)

/-- The update `token_tables[i].tokenizer_data[tokenizer_name] = (id, str)`
(token_scope.py 545-548) for one row. -/
def TokenRow.setData (r : TokenRow) (n : String) (v : Nat × String) : TokenRow :=
  ⟨r.token_index, dictSet r.tokenizer_data n v⟩

/-- The inner loop of `_analyze_file` (token_scope.py 536-548) for one tokenizer:
walk the positions `i` in order; when `i` reaches past the current table length a
fresh row `TokenRow(token_index=i, tokenizer_data={})` is appended; then this
tokenizer's `(id, str)` entry is stored at row `i`.  `pairs` is the position-wise
pairing of `token_ids` and `token_strs` (the source indexes both lists by the same
`i`; the adapter contract keeps their lengths equal). -/
def foldTokensIntoTable (n : String) : List TokenRow → Nat → List (Nat × String) → List TokenRow
  | table, _, [] => table
  | table, i, p :: ps =>
    let table1 := if table.length ≤ i then table ++ [⟨i, []⟩] else table
    let table2 := modifyAt (fun r => r.setData n p) table1 i
    foldTokensIntoTable n table2 (i + 1) ps

/-- The full first-pass construction of the shared `token_tables` list
(token_scope.py 489-548), restricted to its table component: each adapter's zipped
output is folded into the table in the caller-supplied adapter order. -/
def buildTokenTable (outputs : List (String × List (Nat × String))) : List TokenRow :=
  outputs.foldl (fun table pr => foldTokensIntoTable pr.1 table 0 pr.2) []

/-- The `best_match` selection (token_scope.py 550-554): Python's
`max(tokenizer_stats.items(), key=lambda x: x[1].reconstruction_score)[0]` over the
insertion-ordered items `s :: ss`; the builtin `max` keeps the first maximal item. -/
def bestMatchOf (s : String × TokenizerStats) (ss : List (String × TokenizerStats)) : String :=
  (firstMaxBy (fun p => p.2.reconstruction_score) s ss).1

/-- The per-adapter loop state of `_analyze_file` (token_scope.py 477-487): the
accumulating dictionaries, the shared token table and the running maximum index. -/
structure AnalyzeState where
  total_tokens : List (String × Nat)
  token_tables : List TokenRow
  tokenizer_stats : List (String × TokenizerStats)
  frequencies : List (String × TokenFrequency)
  most_common_tokens : List (String × String × Nat)
  rarest_tokens : List (String × String × Nat)
  max_index : Nat

/-- One iteration of the first pass of `_analyze_file` (token_scope.py 489-548) for
the adapter entry `(tokenizer_name, tokenizer)`.  Any failure of the adapter
methods propagates: the loop body has no try/except. -/
def analyzeStep (content : String) (filename : String) (st : AnalyzeState)
    (entry : String × Adapter) : Except String AnalyzeState := do
  let (tokenizer_name, tokenizer) := entry
  let (token_ids, token_strs) ← tokenizer.tokenize content
  let total_tokens := dictSet st.total_tokens tokenizer_name token_ids.length
  let unique_tokens := (counterKeys token_ids).length
  let avg_token_length : ℚ :=
    if token_strs = [] then 0
    else ((token_strs.map String.length).sum : ℚ) / (token_strs.length : ℚ)
  let max_index := max st.max_index token_ids.length
  let (freq_result, most_common, rarest) ← analyze_token_frequency tokenizer content filename
  let frequencies := dictSet st.frequencies tokenizer_name freq_result
  let most_common_tokens := dictSet st.most_common_tokens tokenizer_name most_common
  let rarest_tokens := dictSet st.rarest_tokens tokenizer_name rarest
  let (_, similarity, status) ← evaluate_reconstruction tokenizer content
  let vocab_size ← tokenizer.getVocabSize
  let stats : TokenizerStats :=
    ⟨tokenizer_name, token_ids.length, unique_tokens, vocab_size,
      avg_token_length, similarity, status⟩
  let tokenizer_stats := dictSet st.tokenizer_stats tokenizer_name stats
  let token_tables :=
    foldTokensIntoTable tokenizer_name st.token_tables 0 (token_ids.zip token_strs)
  pure ⟨total_tokens, token_tables, tokenizer_stats, frequencies,
    most_common_tokens, rarest_tokens, max_index⟩

/-- Model of `TokenScopePlugin._analyze_file` (token_scope.py 454-579): run the first pass over
every adapter in order (no exception handling around any adapter call), then select
`best_match` with Python's `max` (which raises on an empty stats dict) and assemble
the result objects. -/
def analyze_file (content : String) (tokenizers : List (String × Adapter))
    (filename : String) :
    Except String (TokenAnalysis × List (String × TokenFrequency) × TokenSummary) := do
  let st ← tokenizers.foldlM (analyzeStep content filename) ⟨[], [], [], [], [], [], 0⟩
  match st.tokenizer_stats with
  | [] => Except.error "max() iterable argument is empty"
  | s :: ss =>
    let best_match := bestMatchOf s ss
    let analysis : TokenAnalysis :=
      ⟨filename, tokenizers.map Prod.fst, st.tokenizer_stats, st.token_tables, best_match⟩
    let summary : TokenSummary :=
      ⟨filename, tokenizers.map Prod.fst, st.total_tokens, best_match,
        st.most_common_tokens, st.rarest_tokens⟩
    pure (analysis, st.frequencies, summary)

/-- A well-behaved demo adapter named "A" (used in concrete runs). -/
def okAdapterA : Adapter :=
  ⟨"A", fun _ => Except.ok ([1], ["a"]), fun _ => Except.ok "a", Except.ok 10⟩

/-- A demo adapter named "B" whose `tokenize` raises. -/
def failingAdapterB : Adapter :=
  ⟨"B", fun _ => Except.error "boom", fun _ => Except.ok "", Except.ok 1⟩

/-- A well-behaved demo adapter named "C". -/
def okAdapterC : Adapter :=
  ⟨"C", fun _ => Except.ok ([2], ["a"]), fun _ => Except.ok "a", Except.ok 7⟩

/-- A demo adapter named "A" producing no tokens (empty output on any text). -/
def emptyAdapterA : Adapter :=
  ⟨"A", fun _ => Except.ok ([], []), fun _ => Except.ok "", Except.ok 3⟩

/-- A demo adapter named "B" producing no tokens. -/
def emptyAdapterB : Adapter :=
  ⟨"B", fun _ => Except.ok ([], []), fun _ => Except.ok "", Except.ok 3⟩

/-- A demo adapter with a fixed three-token output. -/
def demoFreqAdapter : Adapter :=
  ⟨"mock", fun _ => Except.ok ([1, 2, 1], ["a", "b", "a"]), fun _ => Except.ok "aba",
    Except.ok 256⟩

/-- A demo external tiktoken encoding. -/
def demoEncoding : Encoding :=
  ⟨fun _ => [1, 2], fun n => if n = 1 then "x" else "y", fun _ => "xy", 5⟩

/-- Demo zipped first-pass outputs: adapter "A" yields 3 tokens, adapter "B" 5. -/
def demoOutputs : List (String × List (Nat × String)) :=
  [("A", [(1, "x"), (2, "y"), (3, "z")]),
   ("B", [(4, "a"), (5, "b"), (6, "c"), (7, "d"), (8, "e")])]

/-- The stats record that `analyze_file` computes for `emptyAdapterA` on `""`. -/
def emptyStatsA : TokenizerStats := ⟨"A", 0, 0, 3, 0, 1, "Flawless"⟩

/-- The stats record that `analyze_file` computes for `emptyAdapterB` on `""`. -/
def emptyStatsB : TokenizerStats := ⟨"B", 0, 0, 3, 0, 1, "Flawless"⟩

/-- The frequency record for `emptyAdapterA` on `""` and file `"t.txt"`. -/
def emptyFreqA : TokenFrequency := ⟨"A", "t.txt", [], []⟩

/-- The frequency record for `emptyAdapterB` on `""` and file `"t.txt"`. -/
def emptyFreqB : TokenFrequency := ⟨"B", "t.txt", [], []⟩

/-- The analysis that `analyze_file` returns for the two empty demo adapters. -/
def emptyAnalysis : TokenAnalysis :=
  ⟨"t.txt", ["A", "B"], [("A", emptyStatsA), ("B", emptyStatsB)], [], "A"⟩

/-- The frequencies dict that `analyze_file` returns for the two empty demo adapters. -/
def emptyFrequencies : List (String × TokenFrequency) :=
  [("A", emptyFreqA), ("B", emptyFreqB)]

/-- The summary that `analyze_file` returns for the two empty demo adapters. -/
def emptySummary : TokenSummary :=
  ⟨"t.txt", ["A", "B"], [("A", 0), ("B", 0)], "A",
    [("A", ("", 0)), ("B", ("", 0))], [("A", ("", 0)), ("B", ("", 0))]⟩

/-! Basic monadic reduction lemmas -/

theorem except_ok_bind {ε α β : Type} (a : α) (f : α → Except ε β) :
    (Except.ok a : Except ε α) >>= f = f a := rfl

theorem except_error_bind {ε α β : Type} (e : ε) (f : α → Except ε β) :
    (Except.error e : Except ε α) >>= f = Except.error e := rfl

/-- If one element of the list makes the stepping function fail on every state, then
the monadic fold over `Except` fails, whatever the start state. -/
theorem foldlM_except_error {σ α ε : Type} (f : σ → α → Except ε σ) (l : List α)
    (p : α) (hp : p ∈ l) (e : ε) (he : ∀ st, f st p = Except.error e) :
    ∀ st : σ, ∃ e', l.foldlM f st = Except.error e' := by
  induction l with
  | nil => cases hp
  | cons a l ih =>
    intro st
    rw [List.foldlM_cons]
    cases hq : f st a with
    | error e2 => exact ⟨e2, rfl⟩
    | ok st1 =>
      rcases List.mem_cons.mp hp with h | h
      · rw [← h] at hq; rw [he st] at hq; cases hq
      · obtain ⟨e2, h2⟩ := ih h st1
        exact ⟨e2, by simp only [except_ok_bind]; exact h2⟩

/-- Claim C1 (amended): if any adapter's `tokenize` raises during `_analyze_file`'s
first pass, the exception propagates out of the aggregator call — the analysis
produces no result at all instead of skipping the failing adapter. -/
theorem analyze_file_error_escapes (content filename : String)
    (tokenizers : List (String × Adapter)) (p : String × Adapter) (e : String)
    (hp : p ∈ tokenizers) (he : p.2.tokenize content = Except.error e) :
    ∃ e2, analyze_file content tokenizers filename = Except.error e2 := by
  have hstep : ∀ st, analyzeStep content filename st p = Except.error e := by
    intro st
    obtain ⟨n, tk⟩ := p
    simp only [analyzeStep]
    rw [he, except_error_bind]
  obtain ⟨e2, h2⟩ :=
    foldlM_except_error (analyzeStep content filename) tokenizers p hp e hstep
      ⟨[], [], [], [], [], [], 0⟩
  refine ⟨e2, ?_⟩
  simp only [analyze_file]
  rw [h2, except_error_bind]

/-- Witness for C1 (amended) at the concrete three-adapter run where "B" raises. -/
theorem analyze_file_error_escapes_witness :
    ∃ e2, analyze_file "a" [("A", okAdapterA), ("B", failingAdapterB), ("C", okAdapterC)]
      "demo.txt" = Except.error e2 :=
  analyze_file_error_escapes "a" "demo.txt"
    [("A", okAdapterA), ("B", failingAdapterB), ("C", okAdapterC)]
    ("B", failingAdapterB) "boom"
    (List.mem_cons_of_mem _ (List.mem_cons_self _ _)) rfl

/-- Claim C1 counterexample: with adapters A and C fine and B raising during
`tokenize`, the aggregator call evaluates to the propagated exception, so no
result (in particular none with `adaptersUsed = [A, C]`) is produced and the
exception does escape the aggregator. -/
theorem analyze_file_failure_aborts_cex :
    analyze_file "a" [("A", okAdapterA), ("B", failingAdapterB), ("C", okAdapterC)]
        "demo.txt" = Except.error "boom"
    ∧ ∀ r, analyze_file "a" [("A", okAdapterA), ("B", failingAdapterB), ("C", okAdapterC)]
        "demo.txt" ≠ Except.ok r := by
  have h1 : analyze_file "a" [("A", okAdapterA), ("B", failingAdapterB), ("C", okAdapterC)]
      "demo.txt" = Except.error "boom" := rfl
  exact ⟨h1, fun r hr => by rw [h1] at hr; cases hr⟩

/-! Rarity classification (C4) -/

/-- Claim C4 counterexample: at count 1 of 1000 total tokens (frequency exactly
0.1 percent) the classifier does not return the Common class. -/
theorem classify_boundary_cex : classify_token_rarity "the" 1 1000 ≠ "🟢 Common" := by
  have h : classify_token_rarity "the" 1 1000 = "🔴 Rare" := by
    unfold classify_token_rarity
    norm_num
  rw [h]
  decide

/-- Claim C4 (amended): at count 1 of 1000 the classifier returns the Rare class —
frequency exactly 0.1 percent fails the exclusive Legendary bound `< 0.1` but
satisfies the Rare bound `< 1.0`. -/
theorem classify_boundary_amended : classify_token_rarity "the" 1 1000 = "🔴 Rare" := by
  unfold classify_token_rarity
  norm_num

/-! Reconstruction status thresholds (C5) -/

/-- Claim C5: for every similarity score (scores are at most 1 by the similarity
contract), the status is Flawless exactly on score 1.0, Imperfect exactly on
[0.9, 1.0), and Botched exactly below 0.9. -/
theorem reconstruction_status_thresholds (score : ℚ) (h : score ≤ 1) :
    (reconstructionStatus score = "Flawless" ↔ score = 1)
    ∧ (reconstructionStatus score = "Imperfect" ↔ 9/10 ≤ score ∧ score < 1)
    ∧ (reconstructionStatus score = "Botched" ↔ score < 9/10) := by
  unfold reconstructionStatus
  by_cases h1 : score = 1
  · subst h1
    rw [if_pos rfl]
    refine ⟨by simp, ?_, ?_⟩
    · constructor
      · intro hs; exact absurd hs (by decide)
      · rintro ⟨-, hlt⟩; exact absurd hlt (lt_irrefl 1)
    · constructor
      · intro hs; exact absurd hs (by decide)
      · intro hlt; exact absurd hlt (by norm_num)
  · rw [if_neg h1]
    by_cases h2 : score ≥ 9/10
    · rw [if_pos h2]
      have hlt : score < 1 := lt_of_le_of_ne h h1
      refine ⟨?_, ?_, ?_⟩
      · constructor
        · intro hs; exact absurd hs (by decide)
        · intro hs; exact absurd hs h1
      · simp [h2, hlt]
      · constructor
        · intro hs; exact absurd hs (by decide)
        · intro hs; exact absurd hs (not_lt.mpr h2)
    · rw [if_neg h2]
      refine ⟨?_, ?_, ?_⟩
      · constructor
        · intro hs; exact absurd hs (by decide)
        · intro hs; exact absurd hs h1
      · constructor
        · intro hs; exact absurd hs (by decide)
        · rintro ⟨hge, -⟩; exact absurd hge h2
      · simp [not_le.mp h2]

/-- Witness for C5 at the concrete score 1. -/
theorem reconstruction_status_thresholds_witness :
    (reconstructionStatus 1 = "Flawless" ↔ (1 : ℚ) = 1)
    ∧ (reconstructionStatus 1 = "Imperfect" ↔ 9/10 ≤ (1 : ℚ) ∧ (1 : ℚ) < 1)
    ∧ (reconstructionStatus 1 = "Botched" ↔ (1 : ℚ) < 9/10) :=
  reconstruction_status_thresholds 1 (le_refl 1)

/-! Similarity fidelity (C7) -/

/-- Zipping a list with itself makes every position match. -/
theorem countP_zip_self (x : List Char) :
    (x.zip x).countP (fun p => p.1 == p.2) = x.length := by
  induction x with
  | nil => rfl
  | cons c t ih => simp [List.countP_cons, ih]

/-- Claim C7: the fallback similarity is 1 on identical inputs (including two empty
strings), 0 on an empty original against a nonempty reconstruction, and in general
the number of positionally matching characters over the larger length whenever the
original is nonempty. -/
theorem similarity_fidelity :
    (∀ x : List Char, calculate_similarity x x = 1)
    ∧ calculate_similarity [] [] = 1
    ∧ (∀ r : List Char, r ≠ [] → calculate_similarity [] r = 0)
    ∧ (∀ a b : List Char, a ≠ [] →
        calculate_similarity a b
          = (((a.zip b).countP (fun p => p.1 == p.2) : Nat) : ℚ)
            / ((max a.length b.length : Nat) : ℚ)) := by
  refine ⟨?_, rfl, ?_, ?_⟩
  · intro x
    by_cases hx : x = []
    · subst hx; rfl
    · have hlen : x.length ≠ 0 := by simpa using hx
      simp only [calculate_similarity, if_neg hx, Nat.max_self, countP_zip_self]
      rw [if_neg hlen]
      have hcast : (x.length : ℚ) ≠ 0 := Nat.cast_ne_zero.mpr hlen
      exact div_self hcast
  · intro r hr
    simp [calculate_similarity, hr]
  · intro a b ha
    have hmax : max a.length b.length ≠ 0 := by
      have : a.length ≠ 0 := by simpa using ha
      omega
    simp only [calculate_similarity, if_neg ha]
    rw [if_neg hmax]

/-- Witness for C7 at concrete inputs. -/
theorem similarity_fidelity_witness :
    calculate_similarity [] ['a', 'b', 'c'] = 0 ∧ calculate_similarity ['x'] ['x'] = 1 :=
  ⟨similarity_fidelity.2.2.1 ['a', 'b', 'c'] (by decide), similarity_fidelity.1 ['x']⟩

/-! Tokenize length contract (C8) -/

/-- Claim C8: `tokenize` always returns as many ids as segment strings — for the mock
character tokenizer on every text, and for the tiktoken adapter on every call that
returns at all (the string column is built by decoding each id individually). -/
theorem tokenize_length_contract :
    (∀ text : List Char,
        (MockTokenizer.tokenize text).1.length = (MockTokenizer.tokenize text).2.length)
    ∧ ∀ (enc : Encoding) (initialized : Bool) (text : String)
        (ids : List Nat) (strs : List String),
        TiktokenTokenizer.tokenizeCall enc initialized text = Except.ok (ids, strs) →
        ids.length = strs.length := by
  constructor
  · intro text
    simp [MockTokenizer.tokenize]
  · intro enc initialized text ids strs h
    cases initialized with
    | false => simp [TiktokenTokenizer.tokenizeCall] at h
    | true =>
      simp only [TiktokenTokenizer.tokenizeCall, if_neg (by decide : ¬ (true = false)),
        Except.ok.injEq, Prod.mk.injEq] at h
      obtain ⟨h1, h2⟩ := h
      rw [← h1, ← h2]
      simp

/-- Witness for C8 at concrete inputs. -/
theorem tokenize_length_contract_witness :
    (MockTokenizer.tokenize ['h', 'i']).1.length = (MockTokenizer.tokenize ['h', 'i']).2.length
    ∧ ([1, 2] : List Nat).length = (["x", "y"] : List String).length :=
  ⟨tokenize_length_contract.1 ['h', 'i'],
    tokenize_length_contract.2 demoEncoding true "hi" [1, 2] ["x", "y"] rfl⟩

/-! Initialization guards (C9) -/

/-- Claim C9 counterexample: the mock tokenizer's `tokenize` does not check the
`_initialized` flag — called on an uninitialized instance it returns a normal result
instead of raising a not-initialized error. -/
theorem mock_uninitialized_cex :
    MockTokenizer.tokenizeCall false ['a'] = Except.ok ([97], ["a"])
    ∧ ∀ e, MockTokenizer.tokenizeCall false ['a'] ≠ Except.error e := by
  have h1 : MockTokenizer.tokenizeCall false ['a'] = Except.ok ([97], ["a"]) := rfl
  exact ⟨h1, fun e he => by rw [h1] at he; cases he⟩

/-- Claim C9 (amended): the tiktoken adapter's `tokenize`, `decode` and
`get_vocab_size` all raise "Tokenizer not initialized" when called before a
successful `initialize()`, but the mock tokenizer performs no such check and
returns its result whatever the flag. -/
theorem uninitialized_guard_amended :
    (∀ (enc : Encoding) (text : String),
        TiktokenTokenizer.tokenizeCall enc false text
          = Except.error "Tokenizer not initialized")
    ∧ (∀ (enc : Encoding) (ids : List Nat),
        TiktokenTokenizer.decodeCall enc false ids
          = Except.error "Tokenizer not initialized")
    ∧ (∀ enc : Encoding,
        TiktokenTokenizer.getVocabSizeCall enc false
          = Except.error "Tokenizer not initialized")
    ∧ (∀ (initialized : Bool) (text : List Char),
        MockTokenizer.tokenizeCall initialized text
          = Except.ok (MockTokenizer.tokenize text)) :=
  ⟨fun _ _ => rfl, fun _ _ => rfl, fun _ => rfl, fun _ _ => rfl⟩

/-- Witness for C9 (amended) at a concrete encoding and text. -/
theorem uninitialized_guard_amended_witness :
    TiktokenTokenizer.tokenizeCall demoEncoding false "hi"
      = Except.error "Tokenizer not initialized" :=
  uninitialized_guard_amended.1 demoEncoding "hi"

/-! Mock round trip (C10) -/

/-- Reading back the code point of a `Char` built from a valid code point. -/
theorem char_toNat_ofNat_of_valid {m : Nat} (h : m.isValidChar) :
    (Char.ofNat m).toNat = m := by
  unfold Char.ofNat
  rw [dif_pos h]
  rfl

/-- A list map is the identity on a list exactly when the function fixes every
element of the list. -/
theorem map_eq_self_list {α : Type} (f : α → α) (l : List α) :
    l.map f = l ↔ ∀ x ∈ l, f x = x := by
  induction l with
  | nil => simp
  | cons a t ih => simp [ih]

/-- Claim C10: the mock round trip `decode(tokenize(text).ids)` reproduces `text`
exactly when every character has a code point below 128; any character at 128 or
above is mapped through `ord(c) % 1000` then `chr(id % 128)` to a different
character, so the round trip differs. -/
theorem mock_roundtrip_ascii (text : List Char) :
    mockRoundTrip text = text ↔ ∀ c ∈ text, c.toNat < 128 := by
  unfold mockRoundTrip MockTokenizer.tokenize MockTokenizer.decode
  rw [List.map_map, map_eq_self_list]
  constructor
  · intro h c hc
    have hfc := h c hc
    simp only [Function.comp] at hfc
    by_contra hge
    push_neg at hge
    have hm : c.toNat % 1000 % 128 < 128 := Nat.mod_lt _ (by decide)
    have hv : (c.toNat % 1000 % 128).isValidChar := Or.inl (by omega)
    have htn := char_toNat_ofNat_of_valid hv
    rw [hfc] at htn
    omega
  · intro h c hc
    have hlt := h c hc
    have h1 : c.toNat % 1000 = c.toNat := Nat.mod_eq_of_lt (by omega)
    simp only [Function.comp, h1, Nat.mod_eq_of_lt hlt, Char.ofNat_toNat]

/-- Witness for C10 on a concrete ASCII text. -/
theorem mock_roundtrip_ascii_witness : mockRoundTrip ['a'] = ['a'] :=
  (mock_roundtrip_ascii ['a']).mpr (by decide)

/-! First-max and last-min selection lemmas -/

/-- The fold `firstMaxBy` returns an element whose key is maximal over the scanned sequence,
and every element listed before it has a strictly smaller key (first wins ties). -/
theorem firstMaxBy_spec {α β : Type} [LinearOrder β] (key : α → β) (x : α) (xs : List α) :
    ∃ pre post, x :: xs = pre ++ firstMaxBy key x xs :: post
      ∧ (∀ y ∈ pre, key y < key (firstMaxBy key x xs))
      ∧ (∀ y ∈ x :: xs, key y ≤ key (firstMaxBy key x xs)) := by
  induction xs generalizing x with
  | nil => exact ⟨[], [], rfl, by simp, by simp [firstMaxBy]⟩
  | cons z zs ih =>
    have hstep : firstMaxBy key x (z :: zs)
        = firstMaxBy key (if key z > key x then z else x) zs := rfl
    by_cases hz : key z > key x
    · rw [hstep, if_pos hz]
      obtain ⟨pre, post, hdec, hpre, hall⟩ := ih z
      refine ⟨x :: pre, post, by rw [List.cons_append, ← hdec], ?_, ?_⟩
      · intro y hy
        rcases List.mem_cons.mp hy with h | h
        · subst h
          exact lt_of_lt_of_le hz (hall z (List.mem_cons_self z zs))
        · exact hpre y h
      · intro y hy
        rcases List.mem_cons.mp hy with h | h
        · subst h
          exact le_of_lt (lt_of_lt_of_le hz (hall z (List.mem_cons_self z zs)))
        · exact hall y h
    · rw [hstep, if_neg hz]
      have hzx : key z ≤ key x := le_of_not_lt hz
      obtain ⟨pre, post, hdec, hpre, hall⟩ := ih x
      cases pre with
      | nil =>
        simp only [List.nil_append] at hdec
        have hx : firstMaxBy key x zs = x := by
          have := (List.cons.injEq _ _ _ _).mp hdec
          exact this.1.symm
        refine ⟨[], z :: zs, by rw [hx, List.nil_append], by simp, ?_⟩
        intro y hy
        rcases List.mem_cons.mp hy with h | h
        · subst h; exact hall _ (List.mem_cons_self _ _)
        · rcases List.mem_cons.mp h with h2 | h2
          · subst h2
            exact le_trans hzx (hall _ (List.mem_cons_self _ _))
          · exact hall y (List.mem_cons_of_mem _ h2)
      | cons a pre2 =>
        rw [List.cons_append] at hdec
        obtain ⟨hax, hzs⟩ := (List.cons.injEq _ _ _ _).mp hdec
        refine ⟨x :: z :: pre2, post, ?_, ?_, ?_⟩
        · rw [List.cons_append, List.cons_append, ← hzs]
        · intro y hy
          have hmax : key a < key (firstMaxBy key x zs) :=
            hpre a (List.mem_cons_self a pre2)
          rw [← hax] at hmax
          rcases List.mem_cons.mp hy with h | h
          · subst h; exact hmax
          · rcases List.mem_cons.mp h with h2 | h2
            · subst h2; exact lt_of_le_of_lt hzx hmax
            · exact hpre y (List.mem_cons_of_mem _ h2)
        · intro y hy
          rcases List.mem_cons.mp hy with h | h
          · subst h; exact hall _ (List.mem_cons_self _ _)
          · rcases List.mem_cons.mp h with h2 | h2
            · subst h2
              exact le_trans hzx (hall _ (List.mem_cons_self _ _))
            · exact hall y (List.mem_cons_of_mem _ h2)

/-- The fold `lastMinBy` returns an element whose key is minimal over the scanned sequence,
and every element listed after it has a strictly greater key (last wins ties). -/
theorem lastMinBy_spec {α β : Type} [LinearOrder β] (key : α → β) (x : α) (xs : List α) :
    ∃ pre post, x :: xs = pre ++ lastMinBy key x xs :: post
      ∧ (∀ y ∈ post, key (lastMinBy key x xs) < key y)
      ∧ (∀ y ∈ x :: xs, key (lastMinBy key x xs) ≤ key y) := by
  induction xs generalizing x with
  | nil => exact ⟨[], [], rfl, by simp, by simp [lastMinBy]⟩
  | cons z zs ih =>
    have hstep : lastMinBy key x (z :: zs)
        = lastMinBy key (if key z ≤ key x then z else x) zs := rfl
    by_cases hz : key z ≤ key x
    · rw [hstep, if_pos hz]
      obtain ⟨pre, post, hdec, hpost, hall⟩ := ih z
      refine ⟨x :: pre, post, by rw [List.cons_append, ← hdec], hpost, ?_⟩
      intro y hy
      rcases List.mem_cons.mp hy with h | h
      · subst h; exact le_trans (hall z (List.mem_cons_self z zs)) hz
      · exact hall y h
    · rw [hstep, if_neg hz]
      have hxz : key x < key z := lt_of_not_le hz
      obtain ⟨pre, post, hdec, hpost, hall⟩ := ih x
      cases pre with
      | nil =>
        simp only [List.nil_append] at hdec
        obtain ⟨hmx, hpzs⟩ := (List.cons.injEq _ _ _ _).mp hdec
        refine ⟨[], z :: zs, by rw [← hmx, List.nil_append], ?_, ?_⟩
        · intro y hy
          rcases List.mem_cons.mp hy with h | h
          · subst h
            rw [← hmx]
            exact hxz
          · exact hpost y (hpzs ▸ h)
        · intro y hy
          rcases List.mem_cons.mp hy with h | h
          · subst h; exact hall _ (List.mem_cons_self _ _)
          · rcases List.mem_cons.mp h with h2 | h2
            · subst h2
              exact le_trans (hall _ (List.mem_cons_self _ _)) (le_of_lt hxz)
            · exact hall y (List.mem_cons_of_mem _ h2)
      | cons a pre2 =>
        rw [List.cons_append] at hdec
        obtain ⟨hax, hzs⟩ := (List.cons.injEq _ _ _ _).mp hdec
        refine ⟨x :: z :: pre2, post, ?_, hpost, ?_⟩
        · rw [List.cons_append, List.cons_append, ← hzs]
        · intro y hy
          rcases List.mem_cons.mp hy with h | h
          · subst h; exact hall _ (List.mem_cons_self _ _)
          · rcases List.mem_cons.mp h with h2 | h2
            · subst h2
              exact le_trans (hall _ (List.mem_cons_self _ _)) (le_of_lt hxz)
            · exact hall y (List.mem_cons_of_mem _ h2)

/-! Counter key lemmas -/

/-- Membership in the key-accumulating fold. -/
theorem mem_counterKeys_aux {α : Type} [DecidableEq α] (l : List α) :
    ∀ (acc : List α) (x : α),
      x ∈ l.foldl (fun acc s => if s ∈ acc then acc else acc ++ [s]) acc
        ↔ x ∈ acc ∨ x ∈ l := by
  induction l with
  | nil => simp
  | cons a t ih =>
    intro acc x
    simp only [List.foldl_cons]
    by_cases ha : a ∈ acc
    · rw [if_pos ha, ih]
      constructor
      · rintro (h | h)
        · exact Or.inl h
        · exact Or.inr (List.mem_cons_of_mem a h)
      · rintro (h | h)
        · exact Or.inl h
        · rcases List.mem_cons.mp h with h2 | h2
          · subst h2; exact Or.inl ha
          · exact Or.inr h2
    · rw [if_neg ha, ih]
      simp only [List.mem_append, List.mem_singleton, List.mem_cons]
      tauto

/-- A counter's key list has the same members as the underlying list. -/
theorem mem_counterKeys {α : Type} [DecidableEq α] (l : List α) (x : α) :
    x ∈ counterKeys l ↔ x ∈ l := by
  unfold counterKeys
  rw [mem_counterKeys_aux]
  simp

/-- A counter's key list is empty exactly when the underlying list is. -/
theorem counterKeys_eq_nil {α : Type} [DecidableEq α] (l : List α) :
    counterKeys l = [] ↔ l = [] := by
  constructor
  · intro h
    cases l with
    | nil => rfl
    | cons a t =>
      have ha : a ∈ counterKeys (a :: t) :=
        (mem_counterKeys _ _).mpr (List.mem_cons_self a t)
      rw [h] at ha
      cases ha
  · intro h; subst h; rfl

/-- The counter items list is empty exactly when the underlying list is. -/
theorem counterItems_eq_nil {α : Type} [DecidableEq α] (l : List α) :
    counterItems l = [] ↔ l = [] := by
  unfold counterItems
  rw [List.map_eq_nil_iff, counterKeys_eq_nil]

/-- Specification of `mostCommonTok` on a nonempty tokenization: its count field is
the count of its token, the token appears in the counter's key order with every
earlier key of strictly smaller count, and no key beats its count. -/
theorem mostCommonTok_spec (l : List String) (hl : l ≠ []) :
    (mostCommonTok l).2 = l.count (mostCommonTok l).1
    ∧ ∃ pre post, counterKeys l = pre ++ (mostCommonTok l).1 :: post
      ∧ (∀ s ∈ pre, l.count s < (mostCommonTok l).2)
      ∧ ∀ s ∈ counterKeys l, l.count s ≤ (mostCommonTok l).2 := by
  have hkeys : counterKeys l ≠ [] := fun hc => hl ((counterKeys_eq_nil l).mp hc)
  obtain ⟨k, ks, hkk⟩ := List.exists_cons_of_ne_nil hkeys
  have hmc : mostCommonTok l = (firstMaxBy (fun s => l.count s) k ks,
      l.count (firstMaxBy (fun s => l.count s) k ks)) := by
    unfold mostCommonTok
    rw [hkk]
  obtain ⟨pre, post, hdec, hpre, hall⟩ := firstMaxBy_spec (fun s => l.count s) k ks
  rw [hmc]
  refine ⟨rfl, pre, post, ?_, ?_, ?_⟩
  · rw [hkk]; exact hdec
  · exact hpre
  · rw [hkk]; exact hall

/-- Specification of `rarestTok` on a nonempty tokenization: its count field is the
(positive) count of its token, the token appears in the counter's key order with
every later key of strictly greater count, and no key undercuts its count. -/
theorem rarestTok_spec (l : List String) (hl : l ≠ []) :
    (rarestTok l).2 = l.count (rarestTok l).1
    ∧ 0 < (rarestTok l).2
    ∧ ∃ pre post, counterKeys l = pre ++ (rarestTok l).1 :: post
      ∧ (∀ s ∈ post, (rarestTok l).2 < l.count s)
      ∧ ∀ s ∈ counterKeys l, (rarestTok l).2 ≤ l.count s := by
  have hkeys : counterKeys l ≠ [] := fun hc => hl ((counterKeys_eq_nil l).mp hc)
  obtain ⟨k, ks, hkk⟩ := List.exists_cons_of_ne_nil hkeys
  have hrr : rarestTok l = (lastMinBy (fun s => l.count s) k ks,
      l.count (lastMinBy (fun s => l.count s) k ks)) := by
    unfold rarestTok
    rw [hkk]
  obtain ⟨pre, post, hdec, hpost, hall⟩ := lastMinBy_spec (fun s => l.count s) k ks
  rw [hrr]
  have hmem : lastMinBy (fun s => l.count s) k ks ∈ l := by
    have : lastMinBy (fun s => l.count s) k ks ∈ counterKeys l := by
      rw [hkk, hdec]
      exact List.mem_append_right pre (List.mem_cons_self _ _)
    exact (mem_counterKeys _ _).mp this
  refine ⟨rfl, List.count_pos_iff.mpr hmem, pre, post, ?_, ?_, ?_⟩
  · rw [hkk]; exact hdec
  · exact hpost
  · rw [hkk]; exact hall

/-! Frequency extremes (C6) -/

/-- Claim C6: the frequency analyzer returns as `mostCommon` the segment with the
highest count (ties to the first-encountered segment: every key listed before it
counts strictly less) and as `rarest` the segment with the lowest positive count
(ties to the last-encountered segment: every key listed after it counts strictly
more); on a zero-token text both are the sentinel `("", 0)`. -/
theorem frequency_extremes (tokenizer : Adapter) (text filename : String)
    (token_ids : List Nat) (token_strs : List String)
    (h : tokenizer.tokenize text = Except.ok (token_ids, token_strs)) :
    ∃ freq mc rr,
      analyze_token_frequency tokenizer text filename = Except.ok (freq, mc, rr)
      ∧ (token_strs = [] → mc = ("", 0) ∧ rr = ("", 0))
      ∧ (token_strs ≠ [] →
          mc.2 = token_strs.count mc.1
          ∧ rr.2 = token_strs.count rr.1
          ∧ 0 < rr.2
          ∧ (∃ pre post, counterKeys token_strs = pre ++ mc.1 :: post
              ∧ (∀ s ∈ pre, token_strs.count s < mc.2)
              ∧ ∀ s ∈ counterKeys token_strs, token_strs.count s ≤ mc.2)
          ∧ (∃ pre post, counterKeys token_strs = pre ++ rr.1 :: post
              ∧ (∀ s ∈ post, rr.2 < token_strs.count s)
              ∧ ∀ s ∈ counterKeys token_strs, rr.2 ≤ token_strs.count s)) := by
  by_cases hs : token_strs = []
  · subst hs
    refine ⟨⟨tokenizer.name, filename, [],
        (counterItems token_ids).map (fun p => (toString p.1, p.2))⟩,
      ("", 0), ("", 0), ?_, fun _ => ⟨rfl, rfl⟩, fun hne => absurd rfl hne⟩
    unfold analyze_token_frequency
    rw [h]
    rfl
  · have hitems : counterItems token_strs ≠ [] :=
      fun hc => hs ((counterItems_eq_nil _).mp hc)
    refine ⟨⟨tokenizer.name, filename, counterItems token_strs,
        (counterItems token_ids).map (fun p => (toString p.1, p.2))⟩,
      mostCommonTok token_strs, rarestTok token_strs, ?_,
      fun hc => absurd hc hs, fun _ => ?_⟩
    · simp only [analyze_token_frequency, h, except_ok_bind, if_neg hitems]
      rfl
    · obtain ⟨hmc1, pre1, post1, hdec1, hpre1, hall1⟩ := mostCommonTok_spec token_strs hs
      obtain ⟨hrr1, hpos, pre2, post2, hdec2, hpost2, hall2⟩ := rarestTok_spec token_strs hs
      exact ⟨hmc1, hrr1, hpos, ⟨pre1, post1, hdec1, hpre1, hall1⟩,
        ⟨pre2, post2, hdec2, hpost2, hall2⟩⟩

/-! Token table lemmas (C2) -/

theorem length_modifyAt {α : Type} (f : α → α) (l : List α) (i : Nat) :
    (modifyAt f l i).length = l.length := by
  induction l generalizing i with
  | nil => rfl
  | cons a t ih =>
    cases i with
    | zero => rfl
    | succ n => simp [modifyAt, ih]

theorem getElem?_modifyAt {α : Type} (f : α → α) (l : List α) (i j : Nat) :
    (modifyAt f l i)[j]? = if j = i then l[j]?.map f else l[j]? := by
  induction l generalizing i j with
  | nil => simp [modifyAt]
  | cons a t ih =>
    cases i with
    | zero =>
      cases j with
      | zero => simp [modifyAt]
      | succ m => simp [modifyAt]
    | succ n =>
      cases j with
      | zero => simp [modifyAt]
      | succ m => simp [modifyAt, ih]

/-- The key column of a Python dict after an assignment: unchanged when the key was
present, the key appended when it was not. -/
theorem dictSet_map_fst {α : Type} (d : List (String × α)) (k : String) (v : α) :
    (dictSet d k v).map Prod.fst
      = if k ∈ d.map Prod.fst then d.map Prod.fst else d.map Prod.fst ++ [k] := by
  unfold dictSet
  by_cases hk : d.any (fun p => p.1 == k) = true
  · have hmem : k ∈ d.map Prod.fst := by
      simp only [List.any_eq_true, beq_iff_eq] at hk
      obtain ⟨p, hp, hpe⟩ := hk
      exact hpe ▸ List.mem_map_of_mem Prod.fst hp
    rw [if_pos hk, if_pos hmem, List.map_map]
    apply List.map_congr_left
    intro p hp
    by_cases hpn : p.1 = k
    · simp [hpn]
    · simp [hpn]
  · have hmem : k ∉ d.map Prod.fst := by
      intro hc
      obtain ⟨p, hp, hpe⟩ := List.mem_map.mp hc
      refine hk ?_
      simp only [List.any_eq_true, beq_iff_eq]
      exact ⟨p, hp, hpe⟩
    rw [if_neg hk, if_neg hmem, List.map_append]
    rfl

/-- A row has an entry for `n` exactly when `n` is in its key column. -/
theorem rowHasKey_iff_mem (r : TokenRow) (n : String) :
    rowHasKey r n = true ↔ n ∈ r.tokenizer_data.map Prod.fst := by
  unfold rowHasKey
  simp only [List.any_eq_true, beq_iff_eq, List.mem_map]

/-- Setting an entry adds exactly the key `n` to a row's key set. -/
theorem rowHasKey_setData (r : TokenRow) (n n2 : String) (v : Nat × String) :
    rowHasKey (r.setData n v) n2 = true ↔ (rowHasKey r n2 = true ∨ n2 = n) := by
  rw [rowHasKey_iff_mem, rowHasKey_iff_mem]
  show n2 ∈ (dictSet r.tokenizer_data n v).map Prod.fst ↔ _
  rw [dictSet_map_fst]
  by_cases hk : n ∈ r.tokenizer_data.map Prod.fst
  · rw [if_pos hk]
    constructor
    · exact Or.inl
    · rintro (h | h)
      · exact h
      · exact h ▸ hk
  · rw [if_neg hk]
    simp [List.mem_append]

theorem token_index_setData (r : TokenRow) (n : String) (v : Nat × String) :
    (r.setData n v).token_index = r.token_index := rfl

/-- The default row has no keys. -/
theorem rowHasKey_defaultRow (n : String) : rowHasKey defaultRow n = false := rfl

/-- Whether the table row at position `j` (default row when out of range) has an
entry for adapter `n`. -/
def hasKeyAt (t : List TokenRow) (j : Nat) (n : String) : Bool :=
  rowHasKey (t.getD j defaultRow) n

theorem hasKeyAt_append_empty_row (table : List TokenRow) (m : Nat) (j : Nat) (n : String) :
    hasKeyAt (table ++ [⟨m, []⟩]) j n = hasKeyAt table j n := by
  unfold hasKeyAt
  rw [List.getD_eq_getElem?_getD, List.getD_eq_getElem?_getD, List.getElem?_append]
  by_cases hj : j < table.length
  · rw [if_pos hj]
  · rw [if_neg hj]
    have hnone : table[j]? = none := List.getElem?_eq_none (by omega)
    rw [hnone]
    cases hd : j - table.length with
    | zero => simp [hd, rowHasKey, defaultRow]
    | succ m2 => simp [hd]

theorem hasKeyAt_modifyAt_setData (table : List TokenRow) (i : Nat)
    (hi : i < table.length) (n n2 : String) (p : Nat × String) (j : Nat) :
    hasKeyAt (modifyAt (fun r => r.setData n p) table i) j n2 = true
      ↔ (hasKeyAt table j n2 = true ∨ (n2 = n ∧ j = i)) := by
  unfold hasKeyAt
  rw [List.getD_eq_getElem?_getD, List.getD_eq_getElem?_getD, getElem?_modifyAt]
  by_cases hj : j = i
  · rw [if_pos hj]
    subst hj
    rw [List.getElem?_eq_getElem hi]
    simp [rowHasKey_setData]
  · rw [if_neg hj]
    simp [hj]

/-- Length of the table after folding one tokenizer's pairs in from offset `i`. -/
theorem length_foldTokensIntoTable (n : String) (ps : List (Nat × String)) :
    ∀ (table : List TokenRow) (i : Nat), i ≤ table.length →
      (foldTokensIntoTable n table i ps).length = max table.length (i + ps.length) := by
  induction ps with
  | nil =>
    intro table i hi
    simp only [foldTokensIntoTable, List.length_nil]
    omega
  | cons p ps ih =>
    intro table i hi
    simp only [foldTokensIntoTable]
    by_cases hlen : table.length ≤ i
    · rw [if_pos hlen]
      have h1 : (modifyAt (fun r => r.setData n p)
          (table ++ [⟨i, []⟩]) i).length = table.length + 1 := by
        rw [length_modifyAt, List.length_append, List.length_singleton]
      rw [ih _ (i + 1) (by omega), h1]
      simp only [List.length_cons]
      omega
    · rw [if_neg hlen]
      have h1 : (modifyAt (fun r => r.setData n p) table i).length = table.length :=
        length_modifyAt _ _ _
      rw [ih _ (i + 1) (by omega), h1]
      simp only [List.length_cons]
      omega

/-- Folding one tokenizer's pairs in preserves the row-index invariant: every row
stores its own position. -/
theorem token_index_foldTokensIntoTable (n : String) (ps : List (Nat × String)) :
    ∀ (table : List TokenRow) (i : Nat), i ≤ table.length →
      (∀ (j : Nat) (r : TokenRow), table[j]? = some r → r.token_index = j) →
      ∀ (j : Nat) (r : TokenRow),
        (foldTokensIntoTable n table i ps)[j]? = some r → r.token_index = j := by
  induction ps with
  | nil =>
    intro table i _ hidx
    simpa [foldTokensIntoTable] using hidx
  | cons p ps ih =>
    intro table i hi hidx
    simp only [foldTokensIntoTable]
    by_cases hlen : table.length ≤ i
    · rw [if_pos hlen]
      have hieq : i = table.length := le_antisymm hi hlen
      apply ih _ (i + 1)
      · rw [length_modifyAt, List.length_append, List.length_singleton]
        omega
      · intro j r hr
        rw [getElem?_modifyAt] at hr
        by_cases hj : j = i
        · rw [if_pos hj] at hr
          subst hj
          rw [List.getElem?_append, if_neg (by omega)] at hr
          have h0 : j - table.length = 0 := by omega
          rw [h0] at hr
          simp only [List.getElem?_cons_zero, Option.map_some'] at hr
          cases hr
          rw [token_index_setData]
        · rw [if_neg hj] at hr
          rw [List.getElem?_append] at hr
          by_cases hjl : j < table.length
          · rw [if_pos hjl] at hr
            exact hidx j r hr
          · rw [if_neg hjl] at hr
            have h1 : 1 ≤ j - table.length := by omega
            cases hd : j - table.length with
            | zero => omega
            | succ m2 =>
              rw [hd] at hr
              simp at hr
    · rw [if_neg hlen]
      apply ih _ (i + 1)
      · rw [length_modifyAt]
        omega
      · intro j r hr
        rw [getElem?_modifyAt] at hr
        by_cases hj : j = i
        · rw [if_pos hj] at hr
          subst hj
          rw [List.getElem?_eq_getElem (by omega)] at hr
          simp only [Option.map_some'] at hr
          cases hr
          rw [token_index_setData]
          exact hidx j _ (List.getElem?_eq_getElem (by omega))
        · rw [if_neg hj] at hr
          exact hidx j r hr

/-- Folding one tokenizer's pairs in from offset `i` gives its key to exactly the
positions `i ≤ j < i + ps.length` and touches no other key. -/
theorem hasKeyAt_foldTokensIntoTable (n : String) (ps : List (Nat × String)) :
    ∀ (table : List TokenRow) (i : Nat), i ≤ table.length → ∀ (j : Nat) (n2 : String),
      hasKeyAt (foldTokensIntoTable n table i ps) j n2 = true
        ↔ (hasKeyAt table j n2 = true ∨ (n2 = n ∧ i ≤ j ∧ j < i + ps.length)) := by
  induction ps with
  | nil =>
    intro table i hi j n2
    simp only [foldTokensIntoTable, List.length_nil]
    constructor
    · exact Or.inl
    · rintro (h | ⟨-, h1, h2⟩)
      · exact h
      · omega
  | cons p ps ih =>
    intro table i hi j n2
    simp only [foldTokensIntoTable]
    by_cases hlen : table.length ≤ i
    · rw [if_pos hlen]
      have hieq : i = table.length := le_antisymm hi hlen
      rw [ih _ (i + 1)
        (by rw [length_modifyAt, List.length_append, List.length_singleton]; omega)]
      rw [hasKeyAt_modifyAt_setData _ i
        (by rw [List.length_append, List.length_singleton]; omega)]
      rw [hasKeyAt_append_empty_row]
      constructor
      · rintro ((h | ⟨h1, h2⟩) | ⟨h1, h2, h3⟩)
        · exact Or.inl h
        · exact Or.inr ⟨h1, by simp only [List.length_cons]; omega⟩
        · exact Or.inr ⟨h1, by simp only [List.length_cons]; omega⟩
      · rintro (h | ⟨h1, h2, h3⟩)
        · exact Or.inl (Or.inl h)
        · simp only [List.length_cons] at h3
          by_cases hj : j = i
          · exact Or.inl (Or.inr ⟨h1, hj⟩)
          · exact Or.inr ⟨h1, by omega, by omega⟩
    · rw [if_neg hlen]
      rw [ih _ (i + 1) (by rw [length_modifyAt]; omega)]
      rw [hasKeyAt_modifyAt_setData _ i (by omega)]
      constructor
      · rintro ((h | ⟨h1, h2⟩) | ⟨h1, h2, h3⟩)
        · exact Or.inl h
        · exact Or.inr ⟨h1, by simp only [List.length_cons]; omega⟩
        · exact Or.inr ⟨h1, by simp only [List.length_cons]; omega⟩
      · rintro (h | ⟨h1, h2, h3⟩)
        · exact Or.inl (Or.inl h)
        · simp only [List.length_cons] at h3
          by_cases hj : j = i
          · exact Or.inl (Or.inr ⟨h1, hj⟩)
          · exact Or.inr ⟨h1, by omega, by omega⟩

/-- Length of the accumulated table across all adapters. -/
theorem length_buildTokenTable_aux (outputs : List (String × List (Nat × String))) :
    ∀ table : List TokenRow,
      (outputs.foldl (fun t pr => foldTokensIntoTable pr.1 t 0 pr.2) table).length
        = outputs.foldl (fun m pr => max m pr.2.length) table.length := by
  induction outputs with
  | nil => intro table; rfl
  | cons pr rest ih =>
    intro table
    simp only [List.foldl_cons]
    rw [ih, length_foldTokensIntoTable pr.1 pr.2 table 0 (Nat.zero_le _)]
    simp only [Nat.zero_add]

/-- The row-index invariant holds for the accumulated table. -/
theorem token_index_buildTokenTable_aux (outputs : List (String × List (Nat × String))) :
    ∀ table : List TokenRow,
      (∀ (j : Nat) (r : TokenRow), table[j]? = some r → r.token_index = j) →
      ∀ (j : Nat) (r : TokenRow),
        (outputs.foldl (fun t pr => foldTokensIntoTable pr.1 t 0 pr.2) table)[j]? = some r →
          r.token_index = j := by
  induction outputs with
  | nil => intro table h; exact h
  | cons pr rest ih =>
    intro table h
    simp only [List.foldl_cons]
    exact ih _ (token_index_foldTokensIntoTable pr.1 pr.2 table 0 (Nat.zero_le _) h)

/-- Key presence in the accumulated table: row `j` has adapter `n2`'s entry exactly
when some processed adapter named `n2` produced more than `j` tokens. -/
theorem hasKeyAt_buildTokenTable_aux (outputs : List (String × List (Nat × String))) :
    ∀ (table : List TokenRow) (j : Nat) (n2 : String),
      hasKeyAt (outputs.foldl (fun t pr => foldTokensIntoTable pr.1 t 0 pr.2) table) j n2 = true
        ↔ (hasKeyAt table j n2 = true ∨ ∃ pr ∈ outputs, pr.1 = n2 ∧ j < pr.2.length) := by
  induction outputs with
  | nil =>
    intro table j n2
    simp
  | cons pr rest ih =>
    intro table j n2
    simp only [List.foldl_cons]
    rw [ih, hasKeyAt_foldTokensIntoTable pr.1 pr.2 table 0 (Nat.zero_le _)]
    simp only [List.mem_cons, Nat.zero_add]
    constructor
    · rintro ((h | ⟨h1, h2, h3⟩) | ⟨pr2, hpr2, h4, h5⟩)
      · exact Or.inl h
      · exact Or.inr ⟨pr, Or.inl rfl, h1.symm, h3⟩
      · exact Or.inr ⟨pr2, Or.inr hpr2, h4, h5⟩
    · rintro (h | ⟨pr2, hpr2, h4, h5⟩)
      · exact Or.inl (Or.inl h)
      · rcases hpr2 with h6 | h6
        · subst h6; exact Or.inl (Or.inr ⟨h4.symm, Nat.zero_le _, h5⟩)
        · exact Or.inr ⟨pr2, h6, h4, h5⟩

/-- Claim C2: the shared token table built by `_analyze_file`'s first pass has
exactly `max(totalTokens)` rows, the row at position `j` carries `token_index = j`,
and a row has an entry for an adapter exactly when its position is below that
adapter's own token count — no zero-filling past an adapter's output length. -/
theorem token_table_shape (outputs : List (String × List (Nat × String)))
    (hnodup : (outputs.map Prod.fst).Nodup) :
    (buildTokenTable outputs).length = outputs.foldl (fun m pr => max m pr.2.length) 0
    ∧ (∀ j, j < (buildTokenTable outputs).length →
        ((buildTokenTable outputs).getD j defaultRow).token_index = j)
    ∧ ∀ pr ∈ outputs, ∀ j : Nat,
        (rowHasKey ((buildTokenTable outputs).getD j defaultRow) pr.1 = true
          ↔ j < pr.2.length) := by
  refine ⟨?_, ?_, ?_⟩
  · unfold buildTokenTable
    rw [length_buildTokenTable_aux]
    rfl
  · intro j hj
    have hbase : ∀ (j2 : Nat) (r : TokenRow), ([] : List TokenRow)[j2]? = some r →
        r.token_index = j2 := by
      intro j2 r hr
      simp at hr
    have h := token_index_buildTokenTable_aux outputs [] hbase j
    have hsome : (buildTokenTable outputs)[j]?
        = some ((buildTokenTable outputs).getD j defaultRow) := by
      rw [List.getD_eq_getElem?_getD, List.getElem?_eq_getElem hj]
      rfl
    exact h _ hsome
  · intro pr hpr j
    have hkey : rowHasKey ((buildTokenTable outputs).getD j defaultRow) pr.1 = true
        ↔ (rowHasKey (([] : List TokenRow).getD j defaultRow) pr.1 = true
            ∨ ∃ pr2 ∈ outputs, pr2.1 = pr.1 ∧ j < pr2.2.length) :=
      hasKeyAt_buildTokenTable_aux outputs [] j pr.1
    constructor
    · intro h
      rcases hkey.mp h with h2 | ⟨pr2, hpr2, h4, h5⟩
      · simp [defaultRow, rowHasKey] at h2
      · have : pr2 = pr := List.inj_on_of_nodup_map hnodup hpr2 hpr h4
        rw [← this]
        exact h5
    · intro h
      exact hkey.mpr (Or.inr ⟨pr, hpr, rfl, h⟩)

/-- Witness for C2 on the demo outputs (3-token adapter "A", 5-token adapter "B"). -/
theorem token_table_shape_witness :
    (buildTokenTable demoOutputs).length = demoOutputs.foldl (fun m pr => max m pr.2.length) 0
    ∧ (∀ j, j < (buildTokenTable demoOutputs).length →
        ((buildTokenTable demoOutputs).getD j defaultRow).token_index = j)
    ∧ ∀ pr ∈ demoOutputs, ∀ j : Nat,
        (rowHasKey ((buildTokenTable demoOutputs).getD j defaultRow) pr.1 = true
          ↔ j < pr.2.length) :=
  token_table_shape demoOutputs (by decide)

/-- Witness for C6 on a concrete adapter producing segments ["a", "b", "a"]. -/
theorem frequency_extremes_witness :
    ∃ freq mc rr,
      analyze_token_frequency demoFreqAdapter "aba" "f.txt" = Except.ok (freq, mc, rr)
      ∧ ((["a", "b", "a"] : List String) = [] → mc = ("", 0) ∧ rr = ("", 0))
      ∧ ((["a", "b", "a"] : List String) ≠ [] →
          mc.2 = (["a", "b", "a"] : List String).count mc.1
          ∧ rr.2 = (["a", "b", "a"] : List String).count rr.1
          ∧ 0 < rr.2
          ∧ (∃ pre post,
              counterKeys (["a", "b", "a"] : List String) = pre ++ mc.1 :: post
              ∧ (∀ s ∈ pre, (["a", "b", "a"] : List String).count s < mc.2)
              ∧ ∀ s ∈ counterKeys (["a", "b", "a"] : List String),
                  (["a", "b", "a"] : List String).count s ≤ mc.2)
          ∧ (∃ pre post,
              counterKeys (["a", "b", "a"] : List String) = pre ++ rr.1 :: post
              ∧ (∀ s ∈ post, rr.2 < (["a", "b", "a"] : List String).count s)
              ∧ ∀ s ∈ counterKeys (["a", "b", "a"] : List String),
                  rr.2 ≤ (["a", "b", "a"] : List String).count s)) :=
  frequency_extremes demoFreqAdapter "aba" "f.txt" [1, 2, 1] ["a", "b", "a"] rfl

/-! Best-match selection (C3) -/

theorem except_pure_bind {ε α β : Type} (a : α) (f : α → Except ε β) :
    (pure a : Except ε α) >>= f = f a := rfl

theorem except_pure_eq_ok {ε α : Type} (a : α) : (pure a : Except ε α) = Except.ok a := rfl

/-- A successful `_analyze_file` loop iteration records this adapter's stats under
its dict key. -/
theorem analyzeStep_ok (content filename : String) (st st2 : AnalyzeState)
    (n : String) (tk : Adapter)
    (h : analyzeStep content filename st (n, tk) = Except.ok st2) :
    ∃ v : TokenizerStats, st2.tokenizer_stats = dictSet st.tokenizer_stats n v := by
  cases h1 : tk.tokenize content with
  | error e =>
    simp only [analyzeStep, h1, except_error_bind] at h
    cases h
  | ok pr =>
    obtain ⟨ids, strs⟩ := pr
    cases h2 : tk.decode ids with
    | error e =>
      simp only [analyzeStep, analyze_token_frequency, evaluate_reconstruction,
        h1, h2, except_ok_bind, except_pure_bind, except_error_bind] at h
      cases h
    | ok rec =>
      cases h3 : tk.getVocabSize with
      | error e =>
        simp only [analyzeStep, analyze_token_frequency, evaluate_reconstruction,
          h1, h2, h3, except_ok_bind, except_pure_bind, except_error_bind] at h
        cases h
      | ok vs =>
        simp only [analyzeStep, analyze_token_frequency, evaluate_reconstruction,
          h1, h2, h3, except_ok_bind, except_pure_bind, except_pure_eq_ok,
          Except.ok.injEq] at h
        rw [← h]
        exact ⟨_, rfl⟩

/-- Over a successful first pass with fresh, pairwise-distinct adapter names, the
stats dict keys come out as exactly the adapter names in input order. -/
theorem stats_names_foldlM (content filename : String) (toks : List (String × Adapter)) :
    ∀ (st0 st : AnalyzeState),
      toks.foldlM (analyzeStep content filename) st0 = Except.ok st →
      (st0.tokenizer_stats.map Prod.fst ++ toks.map Prod.fst).Nodup →
      st.tokenizer_stats.map Prod.fst
        = st0.tokenizer_stats.map Prod.fst ++ toks.map Prod.fst := by
  induction toks with
  | nil =>
    intro st0 st h _
    simp only [List.foldlM_nil, except_pure_eq_ok, Except.ok.injEq] at h
    rw [← h]
    simp
  | cons q rest ih =>
    intro st0 st h hnd
    rw [List.foldlM_cons] at h
    cases hq : analyzeStep content filename st0 q with
    | error e =>
      rw [hq, except_error_bind] at h
      cases h
    | ok st1 =>
      rw [hq, except_ok_bind] at h
      obtain ⟨nq, tkq⟩ := q
      obtain ⟨v, hv⟩ := analyzeStep_ok content filename st0 st1 nq tkq hq
      have hfresh : nq ∉ st0.tokenizer_stats.map Prod.fst := by
        intro hc
        have hdisj := (List.nodup_append.mp hnd).2.2
        exact hdisj hc (List.mem_cons_self _ _)
      have hkeys1 : st1.tokenizer_stats.map Prod.fst
          = st0.tokenizer_stats.map Prod.fst ++ [nq] := by
        rw [hv, dictSet_map_fst, if_neg hfresh]
      have hnd1 : (st1.tokenizer_stats.map Prod.fst ++ rest.map Prod.fst).Nodup := by
        rw [hkeys1, List.append_assoc, List.singleton_append]
        simpa using hnd
      have hout := ih st1 st h hnd1
      rw [hout, hkeys1, List.append_assoc, List.singleton_append]
      simp

/-- Claim C3: on a successful analysis with distinct adapter names, the stats dict
lists the adapters in the caller-supplied input order, and `best_match` is the name
of the stats entry with the maximal reconstruction score, every entry listed before
it scoring strictly less (so score ties go to the earliest adapter in the
`adaptersUsed` order). -/
theorem best_match_selection (content filename : String)
    (tokenizers : List (String × Adapter)) (analysis : TokenAnalysis)
    (freqs : List (String × TokenFrequency)) (summary : TokenSummary)
    (h : analyze_file content tokenizers filename = Except.ok (analysis, freqs, summary))
    (hnodup : (tokenizers.map Prod.fst).Nodup) :
    analysis.stats.map Prod.fst = tokenizers.map Prod.fst
    ∧ ∃ b pre post, analysis.best_match = b.1
        ∧ analysis.stats = pre ++ b :: post
        ∧ (∀ y ∈ pre, y.2.reconstruction_score < b.2.reconstruction_score)
        ∧ ∀ y ∈ analysis.stats, y.2.reconstruction_score ≤ b.2.reconstruction_score := by
  unfold analyze_file at h
  cases hf : tokenizers.foldlM (analyzeStep content filename) ⟨[], [], [], [], [], [], 0⟩ with
  | error e =>
    rw [hf, except_error_bind] at h
    cases h
  | ok st =>
    rw [hf, except_ok_bind] at h
    have hnames : st.tokenizer_stats.map Prod.fst = tokenizers.map Prod.fst := by
      have := stats_names_foldlM content filename tokenizers _ st hf (by simpa using hnodup)
      simpa using this
    cases hs : st.tokenizer_stats with
    | nil =>
      rw [hs] at h
      cases h
    | cons s ss =>
      rw [hs] at h
      simp only [except_pure_eq_ok, Except.ok.injEq, Prod.mk.injEq] at h
      obtain ⟨ha, -, -⟩ := h
      have hstats : analysis.stats = s :: ss := by
        rw [← ha, ← hs]
      constructor
      · rw [← ha]
        show (s :: ss).map Prod.fst = tokenizers.map Prod.fst
        rw [← hs]
        exact hnames
      · obtain ⟨pre, post, hdec, hpre, hall⟩ :=
          firstMaxBy_spec (fun p => p.2.reconstruction_score) s ss
        refine ⟨firstMaxBy (fun p => p.2.reconstruction_score) s ss, pre, post, ?_, ?_,
          hpre, ?_⟩
        · rw [← ha]
          rfl
        · rw [hstats]
          exact hdec
        · intro y hy
          rw [hstats] at hy
          exact hall y hy

/-- Witness for C3: two zero-token demo adapters both score 1.0, a tie, and the
earlier-listed adapter "A" is selected. -/
theorem best_match_selection_witness :
    emptyAnalysis.stats.map Prod.fst
        = ([("A", emptyAdapterA), ("B", emptyAdapterB)].map Prod.fst)
    ∧ ∃ b pre post, emptyAnalysis.best_match = b.1
        ∧ emptyAnalysis.stats = pre ++ b :: post
        ∧ (∀ y ∈ pre, y.2.reconstruction_score < b.2.reconstruction_score)
        ∧ ∀ y ∈ emptyAnalysis.stats,
            y.2.reconstruction_score ≤ b.2.reconstruction_score :=
  best_match_selection "" "t.txt" [("A", emptyAdapterA), ("B", emptyAdapterB)]
    emptyAnalysis emptyFrequencies emptySummary rfl (by decide)
